import Mathlib

/-!
Verification development for the Data-Reader repository
(src/Data_Pipeline/dataReader.py and src/DatasetLoader.py).

The Python code is shallowly embedded: Python values flowing through the
pipeline become the inductive type `Val`; Python dicts become ordered
association lists (`PyDict`) with `pyGet` (d.get) and `pySet` (d[k] = v)
following Python dict semantics (overwrite keeps the original position,
a new key is appended at the end).

External collaborators are parameters:
- the filesystem is a map from path to optional raw content (`FS`);
- `json.load` is an abstract parser `JsonParse` (String to optional `Val`);
- `csv.DictReader` is an abstract row reader `CsvRead` (String to
  optional list of dicts);
- the Hugging Face tokenizer is an abstract function `Tok` from text to a
  pair (input_ids, attention_mask) of integer lists.
Everything the repository itself implements (extension dispatch,
normalization, metadata merging, indexing) is translated directly.
-/

namespace DataReader

/-- A Python runtime value, as far as the pipeline can observe it. -/
inductive Val where
  | str : String → Val
  | int : Int → Val
  | bool : Bool → Val
  | none : Val
  | list : List Val → Val
  | dict : List (String × Val) → Val

/-- A Python dict: insertion-ordered association list. -/
abbrev PyDict := List (String × Val)

/-- `d.get(k)` / `d[k]`: value of the first binding of `k`. -/
def pyGet (d : PyDict) (k : String) : Option Val :=
  match d with
  | [] => Option.none
  | (k2, v) :: rest => if k2 = k then some v else pyGet rest k

/-- `d[k] = v`: overwrite the existing binding of `k` in place
(keeping its position, as Python dicts do), else append a new binding. -/
def pySet (d : PyDict) (k : String) (v : Val) : PyDict :=
  match d with
  | [] => [(k, v)]
  | (k2, w) :: rest => if k2 = k then (k2, v) :: rest else (k2, w) :: pySet rest k v

/-- `list(d.keys())`. -/
def keys (d : PyDict) : List String := d.map Prod.fst

/-- Python `str.strip()` (leading and trailing whitespace removed). -/
def strip (s : String) : String :=
  String.mk (((s.data.dropWhile Char.isWhitespace).reverse.dropWhile Char.isWhitespace).reverse)

/-- `file.readlines()`: split text into lines, each keeping its trailing
newline; a final fragment without a newline is a line iff it is nonempty. -/
def readlinesAux : List Char → List Char → List String
  | acc, [] => if acc.isEmpty then [] else [String.mk acc.reverse]
  | acc, c :: rest =>
    if c = '\n' then String.mk (acc.reverse ++ ['\n']) :: readlinesAux [] rest
    else readlinesAux (c :: acc) rest

def readlines (s : String) : List String := readlinesAux [] s.data

/-- `Path(p).name`: the final path component. -/
def basename (p : String) : String :=
  String.mk ((p.data.reverse.takeWhile (fun c => c ≠ '/')).reverse)

/-- `Path(p).suffix`: the extension of the final component, i.e. the part
from the last dot on, empty when the last dot is the first or the last
character of the name (CPython pathlib semantics). -/
def pathSuffix (p : String) : String :=
  let rev := (basename p).data.reverse
  match rev.findIdx? (fun c => c = '.') with
  | Option.none => ""
  | some j =>
    if j = 0 then ""
    else if j = rev.length - 1 then ""
    else String.mk ((rev.take (j + 1)).reverse)

/-- Error taxonomy of the pipeline (the Python code raises `ValueError`
for both the unsupported-extension and the bad-shape case; the spec names
them `UnsupportedFormatError` and `NormalizationError`). -/
inductive Err where
  | unsupportedFormat : String → Err
  | ioErr : Err
  | formatErr : Err
  | normalizationErr : Err
  | indexErr : Err
deriving DecidableEq

/-- Filesystem: path to raw text content, `Option.none` when unreadable. -/
abbrev FS := String → Option String

/-- Abstract `json.load` on the file content. -/
abbrev JsonParse := String → Option Val

/-- Abstract `list(csv.DictReader(file))` on the file content. -/
abbrev CsvRead := String → Option (List PyDict)

/-- `TextReader.read` (dataReader.py lines 24-27): `file.readlines()`,
each line one raw string record. -/
def TextReader.read (fs : FS) (p : String) : Except Err (List Val) :=
  match fs p with
  | Option.none => Except.error Err.ioErr
  | some content => Except.ok ((readlines content).map Val.str)

/-- `JSONReader.read` (dataReader.py lines 18-22): parse the whole file;
a top-level list yields its elements, anything else is wrapped. -/
def JSONReader.read (jp : JsonParse) (fs : FS) (p : String) : Except Err (List Val) :=
  match fs p with
  | Option.none => Except.error Err.ioErr
  | some content =>
    match jp content with
    | Option.none => Except.error Err.formatErr
    | some v =>
      match v with
      | Val.list l => Except.ok l
      | _ => Except.ok [v]

/-- `CSVReader.read` (dataReader.py lines 12-16): each `DictReader` row
is one raw mapping record. -/
def CSVReader.read (cr : CsvRead) (fs : FS) (p : String) : Except Err (List Val) :=
  match fs p with
  | Option.none => Except.error Err.ioErr
  | some content =>
    match cr content with
    | Option.none => Except.error Err.formatErr
    | some rows => Except.ok (rows.map Val.dict)

/-- The registered extensions of `UnifiedReader.readers`
(dataReader.py lines 31-36). -/
def exts : List String := [".csv", ".json", ".txt"]

/-- `self.readers[ext].read(file_path)`: dispatch by extension. -/
def dispatch (jp : JsonParse) (cr : CsvRead) (fs : FS) (ext p : String) :
    Except Err (List Val) :=
  if ext = ".csv" then CSVReader.read cr fs p
  else if ext = ".json" then JSONReader.read jp fs p
  else TextReader.read fs p

/-- The normalization of one raw record (dataReader.py lines 47-54):
a plain string becomes a fresh two-field dict, a mapping gets `file`
injected or overwritten, any other shape raises. -/
def normalizeItem (p : String) : Val → Except Err PyDict
  | Val.str s => Except.ok [("text", Val.str (strip s)), ("file", Val.str p)]
  | Val.dict d => Except.ok (pySet d "file" (Val.str p))
  | _ => Except.error Err.normalizationErr

/-- The normalization loop: stop at the first failing record, exactly as
the Python `for` loop raises there. -/
def mapME (f : Val → Except Err PyDict) : List Val → Except Err (List PyDict)
  | [] => Except.ok []
  | a :: rest =>
    match f a with
    | Except.error e => Except.error e
    | Except.ok b =>
      match mapME f rest with
      | Except.error e => Except.error e
      | Except.ok bs => Except.ok (b :: bs)

/-- `UnifiedReader.read_file` (dataReader.py lines 38-56): extension
lookup first, then the format reader, then normalization. -/
def read_file (jp : JsonParse) (cr : CsvRead) (fs : FS) (p : String) :
    Except Err (List PyDict) :=
  if pathSuffix p ∈ exts then
    match dispatch jp cr fs (pathSuffix p) p with
    | Except.error e => Except.error e
    | Except.ok raw => mapME (normalizeItem p) raw
  else Except.error (Err.unsupportedFormat (pathSuffix p))

/-- `UnifiedReader.read_directory` (dataReader.py lines 58-63): visit the
traversal entries in order, read every path whose suffix is registered,
concatenate; errors propagate (the loop has no handler). -/
def read_directory (jp : JsonParse) (cr : CsvRead) (fs : FS) :
    List String → Except Err (List PyDict)
  | [] => Except.ok []
  | p :: rest =>
    if pathSuffix p ∈ exts then
      match read_file jp cr fs p with
      | Except.error e => Except.error e
      | Except.ok recs =>
        match read_directory jp cr fs rest with
        | Except.error e => Except.error e
        | Except.ok more => Except.ok (recs ++ more)
    else read_directory jp cr fs rest

/-- Python `str(v)` for the values of `Val` (containers rendered in
Python repr style; only its type matters to the claims, since the
tokenizer is abstract). -/
def pyStr : Val → String
  | Val.str s => s
  | Val.int n => toString n
  | Val.bool b => if b then "True" else "False"
  | Val.none => "None"
  | Val.list _ => "[...]"
  | Val.dict _ => "\x7b...\x7d"

/-- Abstract tokenizer: `encode_plus` collapsed to the two fields the
code extracts, `(input_ids, attention_mask)`. -/
abbrev Tok := String → List Int × List Int

/-- `text = item.get('text', '')` followed by the `str()` coercion for
non-strings (dataReader.py lines 76-78). -/
def textOf (item : PyDict) : String :=
  match pyGet item "text" with
  | some (Val.str s) => s
  | some v => pyStr v
  | Option.none => ""

/-- The keys `prepared_item` holds before the metadata merge
(dataReader.py lines 88-92). -/
def tokFields : List String := ["input_ids", "attention_mask", "file"]

/-- `k not in prepared_item`, as a Boolean filter. -/
def notTok (k : String) : Bool :=
  if k ∈ tokFields then false else true

/-- The loop body of `LLMDataPreparer.prepare_data` (dataReader.py lines
74-95): build `prepared_item` with the tokenizer outputs and the `file`
field, then merge in every other field of the original item without
overwriting (`prepared_item.update(...)` appends them in source order). -/
def prepareItem (tok : Tok) (item : PyDict) : PyDict :=
  ("input_ids", Val.list (((tok (textOf item)).1).map Val.int)) ::
  ("attention_mask", Val.list (((tok (textOf item)).2).map Val.int)) ::
  ("file", (pyGet item "file").getD (Val.str "")) ::
  item.filter (fun kv => notTok kv.1)

/-- `LLMDataPreparer.prepare_data` (dataReader.py lines 72-96): one
prepared sample per input record, in order. -/
def prepare_data (tok : Tok) (data : List PyDict) : List PyDict :=
  data.map (prepareItem tok)

/-- Python list indexing `data[idx]` with an integer index: indices in
`[0, n)` address directly, indices in `[-n, 0)` address from the end,
anything else raises `IndexError`. -/
def pyIndex (l : List PyDict) (i : Int) : Except Err PyDict :=
  if 0 ≤ i ∧ i < l.length then Except.ok (l.getD i.toNat [])
  else if -(l.length : Int) ≤ i ∧ i < 0 then
    Except.ok (l.getD (l.length - (-i).toNat) [])
  else Except.error Err.indexErr

/-- `LargeDataset.__len__` (DatasetLoader.py lines 10-11). -/
def dataset_len (data : List PyDict) : Nat := data.length

/-- `LargeDataset.__getitem__` (DatasetLoader.py lines 13-14):
`self.preparer.prepare_data([self.data[idx]])[0]`. -/
def getitem (tok : Tok) (data : List PyDict) (i : Int) : Except Err PyDict :=
  match pyIndex data i with
  | Except.error e => Except.error e
  | Except.ok item =>
    match prepare_data tok [item] with
    | [] => Except.error Err.indexErr
    | s :: _ => Except.ok s

/-- Heap-level embedding of `prepare_data`, for the frame property: the
heap is the Python object store for dicts (addresses are indices, fresh
allocation appends at the end), `data` is the list of addresses of the
input records. Each iteration only reads the input record at its address
and allocates the freshly built `prepared_item`; it never writes to an
existing address. -/
def prepare_data_heap (tok : Tok) :
    List PyDict → List Nat → List PyDict × List Nat
  | h, [] => (h, [])
  | h, a :: rest =>
    let p := prepareItem tok (h.getD a [])
    let res := prepare_data_heap tok (h ++ [p]) rest
    (res.1, h.length :: res.2)

/-- Record count a well-formed `.csv` file contributes: its
`DictReader` row count. -/
def csvRowCount (cr : CsvRead) (fs : FS) (p : String) : Nat :=
  match fs p with
  | Option.none => 0
  | some c =>
    match cr c with
    | Option.none => 0
    | some rows => rows.length

/-- Record count a well-formed `.json` file contributes: the number of
top-level elements (one for a non-sequence value). -/
def jsonElementCount (jp : JsonParse) (fs : FS) (p : String) : Nat :=
  match fs p with
  | Option.none => 0
  | some c =>
    match jp c with
    | Option.none => 0
    | some (Val.list l) => l.length
    | some _ => 1

/-- Record count a `.txt` file contributes: its `readlines` line count. -/
def txtLineCount (fs : FS) (p : String) : Nat :=
  match fs p with
  | Option.none => 0
  | some c => (readlines c).length

/-- The record list of a successful `read_file` call (empty on error). -/
def okList (r : Except Err (List PyDict)) : List PyDict :=
  match r with
  | Except.ok l => l
  | Except.error _ => []

/-! Concrete instances used by witnesses and counterexamples. -/

/-- A concrete tokenizer: every text encodes to two tokens. -/
def tok0 : Tok := fun _ => ([101, 102], [1, 1])

/-- A concrete normalized record, as read from a text file. -/
def rec0 : PyDict := [("text", Val.str "hi"), ("file", Val.str "a.txt")]

/-- A one-record corpus. -/
def corpus1 : List PyDict := [rec0]

/-- A filesystem with the same content everywhere. -/
def fs0 : FS := fun _ => some "hi"

/-- A JSON parser returning a one-element array holding an object whose
`text` field is the number 42. -/
def jp0 : JsonParse := fun _ => some (Val.list [Val.dict [("text", Val.int 42)]])

/-- A CSV reader returning a single one-column row. -/
def cr0 : CsvRead := fun _ => some [[("col", Val.str "v")]]

/-- An alternative filesystem agreeing with `fs0` on `"a.txt"` only. -/
def fsAlt : FS := fun q => if q = "a.txt" then some "hi" else Option.none

/-! ## Dictionary lemmas -/

theorem pyGet_pySet_self (d : PyDict) (k : String) (v : Val) :
    pyGet (pySet d k v) k = some v := by
  induction d with
  | nil => simp [pySet, pyGet]
  | cons kv rest ih =>
    obtain ⟨k2, w⟩ := kv
    by_cases h : k2 = k
    · subst h; simp [pySet, pyGet]
    · simp [pySet, pyGet, h, ih]

theorem pyGet_pySet_other (d : PyDict) (k k2 : String) (v : Val) (h : k2 ≠ k) :
    pyGet (pySet d k v) k2 = pyGet d k2 := by
  induction d with
  | nil => simp [pySet, pyGet, Ne.symm h]
  | cons kv rest ih =>
    obtain ⟨k3, w⟩ := kv
    by_cases h3 : k3 = k
    · subst h3
      simp [pySet, pyGet, Ne.symm h]
    · by_cases h32 : k3 = k2
      · subst h32
        simp [pySet, pyGet, h3]
      · simp [pySet, pyGet, h3, h32, ih]

theorem keys_pySet (d : PyDict) (k : String) (v : Val) :
    keys (pySet d k v) = if k ∈ keys d then keys d else keys d ++ [k] := by
  induction d with
  | nil => simp [pySet, keys]
  | cons kv rest ih =>
    obtain ⟨k2, w⟩ := kv
    by_cases h : k2 = k
    · subst h; simp [pySet, keys]
    · have hne : ¬ k = k2 := fun he => h he.symm
      have hstep : pySet ((k2, w) :: rest) k v = (k2, w) :: pySet rest k v := by
        simp [pySet, h]
      rw [hstep]
      show k2 :: keys (pySet rest k v) = _
      rw [ih]
      show _ = if k ∈ k2 :: keys rest then k2 :: keys rest else (k2 :: keys rest) ++ [k]
      by_cases hm : k ∈ keys rest
      · rw [if_pos hm, if_pos (List.mem_cons_of_mem _ hm)]
      · rw [if_neg hm, if_neg (by simp [List.mem_cons, hne, hm]), List.cons_append]

/-! ## Group C4 + C5 + C6 + C8: the reader and the normalizer -/

/-- C4: the three normalization cases of `read_file`, exactly as the
source writes them: a plain string strips to a fresh two-field dict, a
mapping gets `file` injected or overwritten with every other field kept,
and any other shape makes `read_file` fail with the normalization error;
moreover on a supported extension `read_file` is exactly the raw read
followed by this per-record normalization. -/
theorem c4_normalization_cases (p : String) :
    (∀ s, normalizeItem p (Val.str s) =
        Except.ok [("text", Val.str (strip s)), ("file", Val.str p)])
    ∧ (∀ d : PyDict, normalizeItem p (Val.dict d) = Except.ok (pySet d "file" (Val.str p))
        ∧ ∀ k, k ≠ "file" → pyGet (pySet d "file" (Val.str p)) k = pyGet d k)
    ∧ (∀ v : Val, (∀ s, v ≠ Val.str s) → (∀ d, v ≠ Val.dict d) →
        normalizeItem p v = Except.error Err.normalizationErr)
    ∧ (∀ (jp : JsonParse) (cr : CsvRead) (fs : FS) (raw : List Val),
        pathSuffix p ∈ exts → dispatch jp cr fs (pathSuffix p) p = Except.ok raw →
        (read_file jp cr fs p = mapME (normalizeItem p) raw
          ∧ ∀ v ∈ raw, (∀ s, v ≠ Val.str s) → (∀ d, v ≠ Val.dict d) →
              read_file jp cr fs p = Except.error Err.normalizationErr)) := by
  refine ⟨fun s => rfl, fun d => ⟨rfl, fun k hk => pyGet_pySet_other d "file" k _ hk⟩, ?_, ?_⟩
  · intro v h1 h2
    cases v with
    | str s => exact absurd rfl (h1 s)
    | dict d => exact absurd rfl (h2 d)
    | int n => rfl
    | bool b => rfl
    | none => rfl
    | list l => rfl
  · intro jp cr fs raw hmem hdisp
    have hrw : read_file jp cr fs p = mapME (normalizeItem p) raw := by
      simp [read_file, hmem, hdisp]
    refine ⟨hrw, ?_⟩
    intro v hv h1 h2
    rw [hrw]
    have hbad : normalizeItem p v = Except.error Err.normalizationErr := by
      cases v with
      | str s => exact absurd rfl (h1 s)
      | dict d => exact absurd rfl (h2 d)
      | int n => rfl
      | bool b => rfl
      | none => rfl
      | list l => rfl
    clear hrw hdisp
    induction raw with
    | nil => cases hv
    | cons a rest ih =>
      rcases List.mem_cons.mp hv with h | h
      · subst h; simp [mapME, hbad]
      · cases ha : normalizeItem p a with
        | error e =>
          have he : e = Err.normalizationErr := by
            cases a <;> simp [normalizeItem] at ha <;> simp [ha]
          subst he
          simp [mapME, ha]
        | ok b => simp [mapME, ha, ih h]

/-- C4 witness: the string and the bad-shape case at concrete inputs. -/
theorem c4_normalization_cases_witness :
    normalizeItem "a.txt" (Val.str " hi ") =
      Except.ok [("text", Val.str "hi"), ("file", Val.str "a.txt")]
    ∧ normalizeItem "a.txt" (Val.int 3) = Except.error Err.normalizationErr := by
  constructor
  · have h := (c4_normalization_cases "a.txt").1 " hi "
    rw [show strip " hi " = "hi" from by decide] at h
    exact h
  · exact (c4_normalization_cases "a.txt").2.2.1 (Val.int 3)
      (fun s h => nomatch h) (fun d h => nomatch h)

/-- C5: on a path whose suffix is not registered, `read_file` fails with
the unsupported-format error before touching any reader, for every
filesystem and every parser — the result does not depend on `fs`, `jp`
or `cr`, which is the no-I/O guarantee. -/
theorem c5_unsupported_extension_no_io (jp : JsonParse) (cr : CsvRead) (fs : FS)
    (p : String) (h : ¬ pathSuffix p ∈ exts) :
    read_file jp cr fs p = Except.error (Err.unsupportedFormat (pathSuffix p)) := by
  simp [read_file, h]

/-- C5 witness: a `.yaml` path fails on any filesystem. -/
theorem c5_unsupported_extension_no_io_witness :
    read_file jp0 cr0 fs0 "a.yaml" =
      Except.error (Err.unsupportedFormat (pathSuffix "a.yaml")) :=
  c5_unsupported_extension_no_io jp0 cr0 fs0 "a.yaml" (by decide)

/-- C6: when the file content parses as a JSON value `v`, the JSON
reader returns the elements of `v` in order when `v` is a sequence, and
the one-element sequence `[v]` otherwise. -/
theorem c6_json_top_level (jp : JsonParse) (fs : FS) (p content : String) (v : Val)
    (hc : fs p = some content) (hv : jp content = some v) :
    (∀ l, v = Val.list l → JSONReader.read jp fs p = Except.ok l)
    ∧ ((∀ l, v ≠ Val.list l) → JSONReader.read jp fs p = Except.ok [v]) := by
  constructor
  · intro l hl
    subst hl
    simp [JSONReader.read, hc, hv]
  · intro h
    cases v with
    | list l => exact absurd rfl (h l)
    | str s => simp [JSONReader.read, hc, hv]
    | int n => simp [JSONReader.read, hc, hv]
    | bool b => simp [JSONReader.read, hc, hv]
    | none => simp [JSONReader.read, hc, hv]
    | dict d => simp [JSONReader.read, hc, hv]

/-- C6 witness: `jp0` parses everything to a one-element array, and the
reader returns exactly that element. -/
theorem c6_json_top_level_witness :
    JSONReader.read jp0 fs0 "b.json" = Except.ok [Val.dict [("text", Val.int 42)]] :=
  (c6_json_top_level jp0 fs0 "b.json" "hi" (Val.list [Val.dict [("text", Val.int 42)]])
    rfl rfl).1 _ rfl

theorem dispatch_congr (jp : JsonParse) (cr : CsvRead) (fs fs2 : FS) (ext p : String)
    (h : fs p = fs2 p) : dispatch jp cr fs ext p = dispatch jp cr fs2 ext p := by
  unfold dispatch CSVReader.read JSONReader.read TextReader.read
  rw [h]

/-- C8: `read_file` is a function of the content stored at the path: two
calls against filesystems that agree at the path return value-wise equal
results, hence repeated calls on an unmodified file are idempotent. -/
theorem c8_read_file_deterministic (jp : JsonParse) (cr : CsvRead) (fs fs2 : FS)
    (p : String) (h : fs p = fs2 p) :
    read_file jp cr fs p = read_file jp cr fs2 p := by
  unfold read_file
  rw [dispatch_congr jp cr fs fs2 _ p h]

/-- C8 witness: `fs0` and `fsAlt` agree on `a.txt`, so the reads agree. -/
theorem c8_read_file_deterministic_witness :
    read_file jp0 cr0 fs0 "a.txt" = read_file jp0 cr0 fsAlt "a.txt" :=
  c8_read_file_deterministic jp0 cr0 fs0 fsAlt "a.txt" rfl

/-! ## Group C1 + C2 + C9: the lazy dataset and the preparer -/

theorem pyGet_cons (k2 : String) (v : Val) (d : PyDict) (k : String) :
    pyGet ((k2, v) :: d) k = if k2 = k then some v else pyGet d k := rfl

theorem pyGet_filter_notTok (d : PyDict) (k : String) (hk : ¬ k ∈ tokFields) :
    pyGet (d.filter (fun kv => notTok kv.1)) k = pyGet d k := by
  induction d with
  | nil => rfl
  | cons kv rest ih =>
    obtain ⟨k2, w⟩ := kv
    by_cases h2 : k2 ∈ tokFields
    · have hne : ¬ k2 = k := fun he => hk (he ▸ h2)
      rw [List.filter_cons_of_neg (by simp [notTok, h2]), ih, pyGet_cons, if_neg hne]
    · rw [List.filter_cons_of_pos (by simp [notTok, h2]), pyGet_cons, pyGet_cons]
      by_cases he : k2 = k
      · rw [if_pos he, if_pos he]
      · rw [if_neg he, if_neg he, ih]

theorem keys_filter_notTok (d : PyDict) :
    keys (d.filter (fun kv => notTok kv.1)) = (keys d).filter notTok := by
  induction d with
  | nil => rfl
  | cons kv rest ih =>
    obtain ⟨k2, w⟩ := kv
    cases h2 : notTok k2 with
    | false =>
      rw [List.filter_cons_of_neg (by simp [h2]), ih]
      show _ = List.filter notTok (k2 :: keys rest)
      rw [List.filter_cons_of_neg (by simp [h2])]
    | true =>
      rw [List.filter_cons_of_pos (by simp [h2])]
      show k2 :: keys (List.filter _ rest) = List.filter notTok (k2 :: keys rest)
      rw [List.filter_cons_of_pos (by simp [h2]), ih]

theorem keys_prepareItem (tok : Tok) (item : PyDict) :
    keys (prepareItem tok item) = tokFields ++ (keys item).filter notTok := by
  show "input_ids" :: "attention_mask" :: "file" ::
      keys (item.filter fun kv => notTok kv.1) = _
  rw [keys_filter_notTok]
  rfl

theorem pyGet_prepareItem_of_not_tok (tok : Tok) (item : PyDict) (k : String)
    (hk : ¬ k ∈ tokFields) :
    pyGet (prepareItem tok item) k = pyGet item k := by
  have h1 : ¬ "input_ids" = k := fun he => hk (by rw [← he]; decide)
  have h2 : ¬ "attention_mask" = k := fun he => hk (by rw [← he]; decide)
  have h3 : ¬ "file" = k := fun he => hk (by rw [← he]; decide)
  unfold prepareItem
  rw [pyGet_cons, if_neg h1, pyGet_cons, if_neg h2, pyGet_cons, if_neg h3,
    pyGet_filter_notTok item k hk]

theorem getitem_ok (tok : Tok) (data : List PyDict) (i : Int)
    (h : 0 ≤ i ∧ i < (data.length : Int)) :
    getitem tok data i = Except.ok (prepareItem tok (data.getD i.toNat [])) := by
  unfold getitem pyIndex
  rw [if_pos h]
  rfl

/-- C1 (amended): `item_at` fails with `IndexError` exactly when the
integer index is outside `[-n, n)` — Python list indexing accepts
negative indices addressing from the end — and on `[0, n)` it returns
the sample prepared from `Corpus[i]`. -/
theorem c1_item_at_index_contract (tok : Tok) (data : List PyDict) (i : Int) :
    ((∃ e, getitem tok data i = Except.error e) ↔
      ¬ (-(data.length : Int) ≤ i ∧ i < (data.length : Int)))
    ∧ (∀ _ : 0 ≤ i ∧ i < (data.length : Int),
        getitem tok data i = Except.ok (prepareItem tok (data.getD i.toNat []))) := by
  by_cases h1 : 0 ≤ i ∧ i < (data.length : Int)
  · have hok := getitem_ok tok data i h1
    refine ⟨?_, fun _ => hok⟩
    rw [hok]
    constructor
    · rintro ⟨e, he⟩
      exact absurd he (by simp)
    · intro hc
      exact absurd ⟨by omega, by omega⟩ hc
  · by_cases h2 : -(data.length : Int) ≤ i ∧ i < 0
    · have hok : getitem tok data i =
          Except.ok (prepareItem tok (data.getD (data.length - (-i).toNat) [])) := by
        unfold getitem pyIndex
        rw [if_neg h1, if_pos h2]
        rfl
      refine ⟨?_, fun hc => absurd hc h1⟩
      rw [hok]
      constructor
      · rintro ⟨e, he⟩
        exact absurd he (by simp)
      · intro hc
        exact absurd ⟨by omega, by omega⟩ hc
    · have herr : getitem tok data i = Except.error Err.indexErr := by
        unfold getitem pyIndex
        rw [if_neg h1, if_neg h2]
      refine ⟨?_, fun hc => absurd hc h1⟩
      rw [herr]
      constructor
      · intro _
        omega
      · intro _
        exact ⟨Err.indexErr, rfl⟩

/-- C1 counterexample: on a one-record corpus, index `-1` lies outside
`[0, 1)` yet `item_at(-1)` succeeds instead of raising `IndexError`. -/
theorem c1_counterexample :
    ¬ (0 ≤ (-1 : Int) ∧ (-1 : Int) < (corpus1.length : Int))
    ∧ ∃ s, getitem tok0 corpus1 (-1) = Except.ok s :=
  ⟨by decide, ⟨_, rfl⟩⟩

/-- C1 witness: a valid index succeeds with the prepared sample. -/
theorem c1_item_at_index_contract_witness :
    getitem tok0 corpus1 0 = Except.ok (prepareItem tok0 (corpus1.getD 0 [])) :=
  (c1_item_at_index_contract tok0 corpus1 0).2 ⟨by decide, by decide⟩

/-- C2 (amended): for every valid index, `item_at(i)` returns a sample
holding exactly the tokenizer-produced fields `input_ids` and
`attention_mask`, the `file` field, and every remaining field of
`Corpus[i]` unchanged — including `text`, which is carried over rather
than removed. -/
theorem c2_item_at_fields (tok : Tok) (data : List PyDict) (i : Nat)
    (hi : i < data.length) :
    ∃ s, getitem tok data ((i : Int)) = Except.ok s
      ∧ keys s = tokFields ++ (keys (data.getD i [])).filter notTok
      ∧ (∀ k, ¬ k ∈ tokFields → pyGet s k = pyGet (data.getD i []) k)
      ∧ pyGet s "text" = pyGet (data.getD i []) "text"
      ∧ pyGet s "input_ids" =
          some (Val.list (((tok (textOf (data.getD i []))).1).map Val.int))
      ∧ pyGet s "attention_mask" =
          some (Val.list (((tok (textOf (data.getD i []))).2).map Val.int))
      ∧ pyGet s "file" = some ((pyGet (data.getD i []) "file").getD (Val.str "")) := by
  have h1 : 0 ≤ ((i : Int)) ∧ ((i : Int)) < (data.length : Int) := by
    constructor <;> omega
  refine ⟨prepareItem tok (data.getD i []), ?_, keys_prepareItem _ _,
    fun k hk => pyGet_prepareItem_of_not_tok tok _ k hk,
    pyGet_prepareItem_of_not_tok tok _ "text" (by decide), rfl, rfl, rfl⟩
  exact getitem_ok tok data ((i : Int)) h1

/-- C2 counterexample: the claim says `text` does not appear in the
returned sample; on the one-record corpus it does. -/
theorem c2_counterexample :
    ∃ s, getitem tok0 corpus1 0 = Except.ok s ∧ pyGet s "text" = some (Val.str "hi") :=
  ⟨_, rfl, rfl⟩

/-- C2 witness: the amended field contract at a concrete corpus. -/
theorem c2_item_at_fields_witness :
    ∃ s, getitem tok0 corpus1 ((0 : Nat) : Int) = Except.ok s
      ∧ keys s = tokFields ++ (keys (corpus1.getD 0 [])).filter notTok
      ∧ (∀ k, ¬ k ∈ tokFields → pyGet s k = pyGet (corpus1.getD 0 []) k)
      ∧ pyGet s "text" = pyGet (corpus1.getD 0 []) "text"
      ∧ pyGet s "input_ids" =
          some (Val.list (((tok0 (textOf (corpus1.getD 0 []))).1).map Val.int))
      ∧ pyGet s "attention_mask" =
          some (Val.list (((tok0 (textOf (corpus1.getD 0 []))).2).map Val.int))
      ∧ pyGet s "file" = some ((pyGet (corpus1.getD 0 []) "file").getD (Val.str "")) :=
  c2_item_at_fields tok0 corpus1 0 (by decide)

/-- C9: if the tokenizer always returns `input_ids` and
`attention_mask` of length `L`, every sample produced by `prepare_data`
carries an `input_ids` list and an `attention_mask` list of length
exactly `L`, whatever the input text. -/
theorem c9_prepared_lengths (tok : Tok) (L : Nat) (data : List PyDict)
    (hcontract : ∀ t, (tok t).1.length = L ∧ (tok t).2.length = L) :
    ∀ s ∈ prepare_data tok data, ∃ ids mask,
      pyGet s "input_ids" = some (Val.list ids) ∧ ids.length = L
      ∧ pyGet s "attention_mask" = some (Val.list mask) ∧ mask.length = L := by
  intro s hs
  rcases List.mem_map.mp hs with ⟨item, hitem, rfl⟩
  refine ⟨((tok (textOf item)).1).map Val.int, ((tok (textOf item)).2).map Val.int,
    rfl, ?_, rfl, ?_⟩
  · rw [List.length_map]
    exact (hcontract _).1
  · rw [List.length_map]
    exact (hcontract _).2

/-- C9 witness: `tok0` always emits two tokens, and the prepared sample
has both sequences of length 2. -/
theorem c9_prepared_lengths_witness :
    ∃ ids mask,
      pyGet (prepareItem tok0 rec0) "input_ids" = some (Val.list ids) ∧ ids.length = 2
      ∧ pyGet (prepareItem tok0 rec0) "attention_mask" = some (Val.list mask)
      ∧ mask.length = 2 :=
  c9_prepared_lengths tok0 2 [rec0] (fun _ => ⟨rfl, rfl⟩)
    (prepareItem tok0 rec0) (by simp [prepare_data])

/-! ## Group C3 + C7: invariants of read_file and directory aggregation -/

theorem mapME_length (f : Val → Except Err PyDict) (l : List Val) (res : List PyDict)
    (h : mapME f l = Except.ok res) : res.length = l.length := by
  induction l generalizing res with
  | nil =>
    unfold mapME at h
    cases h
    rfl
  | cons a rest ih =>
    unfold mapME at h
    cases hf : f a with
    | error e =>
      rw [hf] at h
      exact (nomatch h)
    | ok b =>
      rw [hf] at h
      cases hr : mapME f rest with
      | error e =>
        rw [hr] at h
        exact (nomatch h)
      | ok bs =>
        rw [hr] at h
        cases h
        simp [ih bs hr]

theorem mapME_mem (f : Val → Except Err PyDict) (l : List Val) (res : List PyDict)
    (h : mapME f l = Except.ok res) :
    ∀ b ∈ res, ∃ a ∈ l, f a = Except.ok b := by
  induction l generalizing res with
  | nil =>
    unfold mapME at h
    cases h
    intro b hb
    cases hb
  | cons a rest ih =>
    unfold mapME at h
    cases hf : f a with
    | error e =>
      rw [hf] at h
      exact (nomatch h)
    | ok b0 =>
      rw [hf] at h
      cases hr : mapME f rest with
      | error e =>
        rw [hr] at h
        exact (nomatch h)
      | ok bs =>
        rw [hr] at h
        cases h
        intro b hb
        rcases List.mem_cons.mp hb with hb | hb
        · exact ⟨a, List.mem_cons_self _ _, hb ▸ hf⟩
        · obtain ⟨a2, ha2, hfa2⟩ := ih bs hr b hb
          exact ⟨a2, List.mem_cons_of_mem _ ha2, hfa2⟩

theorem normalizeItem_file (p : String) (v : Val) (r : PyDict)
    (h : normalizeItem p v = Except.ok r) :
    pyGet r "file" = some (Val.str p) := by
  cases v with
  | str s =>
    cases h
    rw [pyGet_cons, if_neg (by decide), pyGet_cons, if_pos rfl]
  | dict d =>
    cases h
    exact pyGet_pySet_self d "file" (Val.str p)
  | int n => exact (nomatch h)
  | bool b => exact (nomatch h)
  | none => exact (nomatch h)
  | list l => exact (nomatch h)

/-- C3 (amended): every NormalizedRecord returned by `read_file(path)`
has its `file` field equal to `path` (the normalizer overwrites any
pre-existing `file` binding; exactly one `file` binding survives when
the source mapping's keys are distinct). Records built from plain-string
RawRecords have a string `text`; records built from mapping RawRecords
keep their original `text` value unchanged, which may be a non-string —
stringification only happens later, inside `prepare_data`. -/
theorem c3_file_field_invariant :
    (∀ (jp : JsonParse) (cr : CsvRead) (fs : FS) (p : String) (recs : List PyDict),
      read_file jp cr fs p = Except.ok recs →
      ∀ r ∈ recs, pyGet r "file" = some (Val.str p))
    ∧ (∀ (p : String) (d r : PyDict), (keys d).Nodup →
        normalizeItem p (Val.dict d) = Except.ok r →
        List.count "file" (keys r) = 1 ∧ (keys r).Nodup)
    ∧ (∀ (p s : String) (r : PyDict), normalizeItem p (Val.str s) = Except.ok r →
        pyGet r "text" = some (Val.str (strip s))) := by
  refine ⟨?_, ?_, ?_⟩
  · intro jp cr fs p recs h r hr
    unfold read_file at h
    by_cases hm : pathSuffix p ∈ exts
    · rw [if_pos hm] at h
      cases hd : dispatch jp cr fs (pathSuffix p) p with
      | error e =>
        rw [hd] at h
        exact (nomatch h)
      | ok raw =>
        rw [hd] at h
        obtain ⟨a, _, hfa⟩ := mapME_mem (normalizeItem p) raw recs (by exact h) r hr
        exact normalizeItem_file p a r hfa
    · rw [if_neg hm] at h
      exact (nomatch h)
  · intro p d r hnd h
    cases h
    rw [keys_pySet]
    by_cases hmem : "file" ∈ keys d
    · rw [if_pos hmem]
      exact ⟨List.count_eq_one_of_mem hnd hmem, hnd⟩
    · rw [if_neg hmem]
      constructor
      · rw [List.count_append, List.count_eq_zero_of_not_mem hmem,
          List.count_singleton_self]
      · rw [List.nodup_append]
        exact ⟨hnd, List.nodup_singleton _, by simp [hmem]⟩
  · intro p s r h
    cases h
    rw [pyGet_cons, if_pos rfl]

/-- C3 counterexample: a JSON file holding `[ { "text" : 42 } ]` yields a
NormalizedRecord whose `text` field is the integer 42, not a string. -/
theorem c3_counterexample :
    ∃ recs, read_file jp0 cr0 fs0 "b.json" = Except.ok recs
      ∧ pyGet (recs.getD 0 []) "text" = some (Val.int 42)
      ∧ ∀ s, Val.int 42 ≠ Val.str s :=
  ⟨_, rfl, rfl, fun _ h => nomatch h⟩

/-- C3 witness: the `file` field of the record read from `b.json`. -/
theorem c3_file_field_invariant_witness :
    pyGet [("text", Val.int 42), ("file", Val.str "b.json")] "file" =
      some (Val.str "b.json") :=
  c3_file_field_invariant.1 jp0 cr0 fs0 "b.json"
    [[("text", Val.int 42), ("file", Val.str "b.json")]] rfl _ (by simp)

/-- Concatenation, in traversal order, of the records of the given
files (used to state what `read_directory` aggregates). -/
def readAll (jp : JsonParse) (cr : CsvRead) (fs : FS) : List String → List PyDict
  | [] => []
  | p :: rest => okList (read_file jp cr fs p) ++ readAll jp cr fs rest

theorem read_file_length_csv (jp : JsonParse) (cr : CsvRead) (fs : FS) (p : String)
    (l : List PyDict) (he : pathSuffix p = ".csv")
    (h : read_file jp cr fs p = Except.ok l) : l.length = csvRowCount cr fs p := by
  cases hc : fs p with
  | none =>
    have herr : read_file jp cr fs p = Except.error Err.ioErr := by
      simp [read_file, dispatch, CSVReader.read, he, hc, exts]
    rw [herr] at h
    exact (nomatch h)
  | some c =>
    cases hcr : cr c with
    | none =>
      have herr : read_file jp cr fs p = Except.error Err.formatErr := by
        simp [read_file, dispatch, CSVReader.read, he, hc, hcr, exts]
      rw [herr] at h
      exact (nomatch h)
    | some rows =>
      have heq : read_file jp cr fs p = mapME (normalizeItem p) (rows.map Val.dict) := by
        simp [read_file, dispatch, CSVReader.read, he, hc, hcr, exts]
      rw [heq] at h
      have hcount : csvRowCount cr fs p = rows.length := by
        simp [csvRowCount, hc, hcr]
      rw [hcount, mapME_length (normalizeItem p) (rows.map Val.dict) l h,
        List.length_map]

theorem read_file_length_json (jp : JsonParse) (cr : CsvRead) (fs : FS) (p : String)
    (l : List PyDict) (he : pathSuffix p = ".json")
    (h : read_file jp cr fs p = Except.ok l) : l.length = jsonElementCount jp fs p := by
  cases hc : fs p with
  | none =>
    have herr : read_file jp cr fs p = Except.error Err.ioErr := by
      simp [read_file, dispatch, JSONReader.read, he, hc, exts]
    rw [herr] at h
    exact (nomatch h)
  | some c =>
    cases hj : jp c with
    | none =>
      have herr : read_file jp cr fs p = Except.error Err.formatErr := by
        simp [read_file, dispatch, JSONReader.read, he, hc, hj, exts]
      rw [herr] at h
      exact (nomatch h)
    | some v =>
      cases v with
      | list elems =>
        have heq : read_file jp cr fs p = mapME (normalizeItem p) elems := by
          simp [read_file, dispatch, JSONReader.read, he, hc, hj, exts]
        rw [heq] at h
        have hcount : jsonElementCount jp fs p = elems.length := by
          simp [jsonElementCount, hc, hj]
        rw [hcount, mapME_length (normalizeItem p) elems l h]
      | str s =>
        have heq : read_file jp cr fs p = mapME (normalizeItem p) [Val.str s] := by
          simp [read_file, dispatch, JSONReader.read, he, hc, hj, exts]
        rw [heq] at h
        have hcount : jsonElementCount jp fs p = 1 := by
          simp [jsonElementCount, hc, hj]
        rw [hcount, mapME_length (normalizeItem p) [Val.str s] l h, List.length_singleton]
      | int n =>
        have heq : read_file jp cr fs p = mapME (normalizeItem p) [Val.int n] := by
          simp [read_file, dispatch, JSONReader.read, he, hc, hj, exts]
        rw [heq] at h
        have hcount : jsonElementCount jp fs p = 1 := by
          simp [jsonElementCount, hc, hj]
        rw [hcount, mapME_length (normalizeItem p) [Val.int n] l h, List.length_singleton]
      | bool b =>
        have heq : read_file jp cr fs p = mapME (normalizeItem p) [Val.bool b] := by
          simp [read_file, dispatch, JSONReader.read, he, hc, hj, exts]
        rw [heq] at h
        have hcount : jsonElementCount jp fs p = 1 := by
          simp [jsonElementCount, hc, hj]
        rw [hcount, mapME_length (normalizeItem p) [Val.bool b] l h, List.length_singleton]
      | none =>
        have heq : read_file jp cr fs p = mapME (normalizeItem p) [Val.none] := by
          simp [read_file, dispatch, JSONReader.read, he, hc, hj, exts]
        rw [heq] at h
        have hcount : jsonElementCount jp fs p = 1 := by
          simp [jsonElementCount, hc, hj]
        rw [hcount, mapME_length (normalizeItem p) [Val.none] l h, List.length_singleton]
      | dict d =>
        have heq : read_file jp cr fs p = mapME (normalizeItem p) [Val.dict d] := by
          simp [read_file, dispatch, JSONReader.read, he, hc, hj, exts]
        rw [heq] at h
        have hcount : jsonElementCount jp fs p = 1 := by
          simp [jsonElementCount, hc, hj]
        rw [hcount, mapME_length (normalizeItem p) [Val.dict d] l h, List.length_singleton]

theorem read_file_length_txt (jp : JsonParse) (cr : CsvRead) (fs : FS) (p : String)
    (l : List PyDict) (he : pathSuffix p = ".txt")
    (h : read_file jp cr fs p = Except.ok l) : l.length = txtLineCount fs p := by
  cases hc : fs p with
  | none =>
    have herr : read_file jp cr fs p = Except.error Err.ioErr := by
      simp [read_file, dispatch, TextReader.read, he, hc, exts]
    rw [herr] at h
    exact (nomatch h)
  | some c =>
    have heq : read_file jp cr fs p = mapME (normalizeItem p) ((readlines c).map Val.str) := by
      simp [read_file, dispatch, TextReader.read, he, hc, exts]
    rw [heq] at h
    have hcount : txtLineCount fs p = (readlines c).length := by
      simp [txtLineCount, hc]
    rw [hcount, mapME_length (normalizeItem p) ((readlines c).map Val.str) l h,
      List.length_map]

/-- C7: when every registered-extension file under the traversal is
well-formed, `read_directory` succeeds and returns exactly the
concatenation, in traversal order, of `read_file` on each
registered-extension entry, whose total count is
rowCount(CSV files) + elementCount(JSON files) + lineCount(text files);
entries with other extensions are filtered out before any read, so they
contribute zero records and cause no error. -/
theorem c7_read_directory_counts (jp : JsonParse) (cr : CsvRead) (fs : FS)
    (entries : List String)
    (h : ∀ p ∈ entries, pathSuffix p ∈ exts → ∃ l, read_file jp cr fs p = Except.ok l) :
    ∃ recs, read_directory jp cr fs entries = Except.ok recs
      ∧ recs = readAll jp cr fs (entries.filter (fun p => decide (pathSuffix p ∈ exts)))
      ∧ recs.length =
          ((entries.filter (fun p => decide (pathSuffix p = ".csv"))).map
            (fun p => csvRowCount cr fs p)).sum
        + ((entries.filter (fun p => decide (pathSuffix p = ".json"))).map
            (fun p => jsonElementCount jp fs p)).sum
        + ((entries.filter (fun p => decide (pathSuffix p = ".txt"))).map
            (fun p => txtLineCount fs p)).sum := by
  induction entries with
  | nil => exact ⟨[], rfl, rfl, rfl⟩
  | cons p rest ih =>
    obtain ⟨recs, hr, hall, hlen⟩ :=
      ih (fun q hq hqe => h q (List.mem_cons_of_mem _ hq) hqe)
    by_cases hm : pathSuffix p ∈ exts
    · obtain ⟨l, hl⟩ := h p (List.mem_cons_self _ _) hm
      have hstep : read_directory jp cr fs (p :: rest) = Except.ok (l ++ recs) := by
        unfold read_directory
        rw [if_pos hm, hl, hr]
      have hallstep :
          l ++ recs = readAll jp cr fs
            ((p :: rest).filter (fun q => decide (pathSuffix q ∈ exts))) := by
        rw [List.filter_cons_of_pos (by simp [hm])]
        unfold readAll
        rw [hl, hall]
        rfl
      refine ⟨l ++ recs, hstep, hallstep, ?_⟩
      rcases (by simpa [exts] using hm : pathSuffix p = ".csv" ∨
          pathSuffix p = ".json" ∨ pathSuffix p = ".txt") with he | he | he
      · rw [List.filter_cons_of_pos (by simp [he]),
          List.filter_cons_of_neg (by simp [he]),
          List.filter_cons_of_neg (by simp [he]),
          List.map_cons, List.sum_cons, List.length_append, hlen,
          read_file_length_csv jp cr fs p l he hl]
        omega
      · rw [List.filter_cons_of_neg (by simp [he]),
          List.filter_cons_of_pos (by simp [he]),
          List.filter_cons_of_neg (by simp [he]),
          List.map_cons, List.sum_cons, List.length_append, hlen,
          read_file_length_json jp cr fs p l he hl]
        omega
      · rw [List.filter_cons_of_neg (by simp [he]),
          List.filter_cons_of_neg (by simp [he]),
          List.filter_cons_of_pos (by simp [he]),
          List.map_cons, List.sum_cons, List.length_append, hlen,
          read_file_length_txt jp cr fs p l he hl]
        omega
    · have h1 : ¬ pathSuffix p = ".csv" := fun he => hm (by rw [he]; decide)
      have h2 : ¬ pathSuffix p = ".json" := fun he => hm (by rw [he]; decide)
      have h3 : ¬ pathSuffix p = ".txt" := fun he => hm (by rw [he]; decide)
      have hstep : read_directory jp cr fs (p :: rest) = read_directory jp cr fs rest := by
        conv_lhs => unfold read_directory
        rw [if_neg hm]
      rw [hstep, List.filter_cons_of_neg (by simp [hm]),
        List.filter_cons_of_neg (by simp [h1]),
        List.filter_cons_of_neg (by simp [h2]),
        List.filter_cons_of_neg (by simp [h3])]
      exact ⟨recs, hr, hall, hlen⟩

/-- C7 witness: one text file with one line, one JSON file with one
element, one `.md` file that is skipped: two records in total. -/
theorem c7_read_directory_counts_witness :
    ∃ recs, read_directory jp0 cr0 fs0 ["a.txt", "b.json", "notes.md"] = Except.ok recs
      ∧ recs = readAll jp0 cr0 fs0
          ((["a.txt", "b.json", "notes.md"]).filter
            (fun p => decide (pathSuffix p ∈ exts)))
      ∧ recs.length =
          (((["a.txt", "b.json", "notes.md"]).filter
              (fun p => decide (pathSuffix p = ".csv"))).map
            (fun p => csvRowCount cr0 fs0 p)).sum
        + (((["a.txt", "b.json", "notes.md"]).filter
              (fun p => decide (pathSuffix p = ".json"))).map
            (fun p => jsonElementCount jp0 fs0 p)).sum
        + (((["a.txt", "b.json", "notes.md"]).filter
              (fun p => decide (pathSuffix p = ".txt"))).map
            (fun p => txtLineCount fs0 p)).sum := by
  refine c7_read_directory_counts jp0 cr0 fs0 _ ?_
  intro p hp hpe
  simp only [List.mem_cons, List.not_mem_nil, or_false] at hp
  rcases hp with rfl | rfl | rfl
  · exact ⟨_, rfl⟩
  · exact ⟨_, rfl⟩
  · exact absurd hpe (by decide)

/-! ## Group C10: prepare_data leaves its argument untouched -/

theorem prepare_data_heap_extends (tok : Tok) (addrs : List Nat) :
    ∀ h : List PyDict, ∃ t, (prepare_data_heap tok h addrs).1 = h ++ t := by
  induction addrs with
  | nil => exact fun h => ⟨[], by simp [prepare_data_heap]⟩
  | cons a rest ih =>
    intro h
    obtain ⟨t, ht⟩ := ih (h ++ [prepareItem tok (h.getD a [])])
    refine ⟨prepareItem tok (h.getD a []) :: t, ?_⟩
    show (prepare_data_heap tok (h ++ [prepareItem tok (h.getD a [])]) rest).1 = _
    rw [ht, List.append_assoc]
    rfl

theorem prepare_data_heap_addrs (tok : Tok) (addrs : List Nat) :
    ∀ h : List PyDict, (prepare_data_heap tok h addrs).2 =
      List.range' h.length addrs.length := by
  induction addrs with
  | nil => exact fun h => rfl
  | cons a rest ih =>
    intro h
    show h.length :: (prepare_data_heap tok (h ++ [prepareItem tok (h.getD a [])]) rest).2 =
      List.range' h.length (rest.length + 1)
    rw [ih, List.length_append, List.length_singleton, List.range'_succ]

theorem prepare_data_heap_values (tok : Tok) (addrs : List Nat) :
    ∀ (h : List PyDict), (∀ a ∈ addrs, a < h.length) →
      ∀ i, i < addrs.length →
        (prepare_data_heap tok h addrs).1.getD (h.length + i) [] =
          prepareItem tok (h.getD (addrs.getD i 0) []) := by
  induction addrs with
  | nil =>
    intro h _ i hi
    cases hi
  | cons a rest ih =>
    intro h ha i hi
    cases i with
    | zero =>
      obtain ⟨t, ht⟩ :=
        prepare_data_heap_extends tok rest (h ++ [prepareItem tok (h.getD a [])])
      show (prepare_data_heap tok (h ++ [prepareItem tok (h.getD a [])]) rest).1.getD
          (h.length + 0) [] = _
      rw [ht, Nat.add_zero,
        List.getD_append _ _ _ _ (by simp),
        List.getD_append_right _ _ _ _ (Nat.le_refl _), Nat.sub_self]
      rfl
    | succ i =>
      have ha2 : ∀ b ∈ rest, b < (h ++ [prepareItem tok (h.getD a [])]).length := by
        intro b hb
        have := ha b (List.mem_cons_of_mem _ hb)
        simp only [List.length_append, List.length_singleton]
        omega
      have hi2 : i < rest.length := by
        simpa using Nat.lt_of_succ_lt_succ (by simpa using hi)
      have hrec := ih (h ++ [prepareItem tok (h.getD a [])]) ha2 i hi2
      show (prepare_data_heap tok (h ++ [prepareItem tok (h.getD a [])]) rest).1.getD
          (h.length + (i + 1)) [] = _
      have harith : h.length + (i + 1) =
          (h ++ [prepareItem tok (h.getD a [])]).length + i := by
        simp only [List.length_append, List.length_singleton]
        omega
      rw [harith, hrec]
      have haddr : rest.getD i 0 < h.length := by
        have hmem : rest.getD i 0 ∈ rest := by
          rw [List.getD_eq_getElem?_getD, List.getElem?_eq_getElem hi2, Option.getD_some]
          exact List.getElem_mem hi2
        exact ha _ (List.mem_cons_of_mem _ hmem)
      rw [List.getD_append _ _ _ _ haddr]
      rfl

/-- C10: `prepare_data`, run over the object store, never writes to a
pre-existing address — the original record dicts are unchanged after the
call (first conjunct: the final heap extends the initial one); the
returned samples live at fresh, pairwise-distinct addresses allocated in
order (second conjunct); the sample at position i is the freshly built
`prepared_item` of the unchanged input record addressed by `addrs[i]`,
one per input record in order (third conjunct); consequently a repeated
call — as repeated `item_at` on the same index — reads the very same
record values and builds equal samples (fourth conjunct). -/
theorem c10_prepare_data_no_mutation (tok : Tok) (h : List PyDict) (addrs : List Nat)
    (ha : ∀ a ∈ addrs, a < h.length) :
    (∃ t, (prepare_data_heap tok h addrs).1 = h ++ t)
    ∧ (prepare_data_heap tok h addrs).2 = List.range' h.length addrs.length
    ∧ (∀ i, i < addrs.length →
        (prepare_data_heap tok h addrs).1.getD (h.length + i) [] =
          prepareItem tok (h.getD (addrs.getD i 0) []))
    ∧ (∀ i, i < addrs.length →
        (prepare_data_heap tok (prepare_data_heap tok h addrs).1 addrs).1.getD
            ((prepare_data_heap tok h addrs).1.length + i) [] =
          prepareItem tok (h.getD (addrs.getD i 0) [])) := by
  obtain ⟨t, ht⟩ := prepare_data_heap_extends tok addrs h
  refine ⟨⟨t, ht⟩, prepare_data_heap_addrs tok addrs h,
    prepare_data_heap_values tok addrs h ha, ?_⟩
  intro i hi
  have ha2 : ∀ a ∈ addrs, a < (prepare_data_heap tok h addrs).1.length := by
    intro a haa
    rw [ht, List.length_append]
    have := ha a haa
    omega
  rw [prepare_data_heap_values tok addrs _ ha2 i hi]
  have haddr : addrs.getD i 0 < h.length := by
    have hmem : addrs.getD i 0 ∈ addrs := by
      rw [List.getD_eq_getElem?_getD, List.getElem?_eq_getElem hi, Option.getD_some]
      exact List.getElem_mem hi
    exact ha _ hmem
  rw [ht, List.getD_append _ _ _ _ haddr]

/-- C10 witness: one record at address 0, heap of size 1. -/
theorem c10_prepare_data_no_mutation_witness :
    (prepare_data_heap tok0 corpus1 [0]).2 = List.range' 1 1
    ∧ (prepare_data_heap tok0 corpus1 [0]).1.getD 1 [] =
        prepareItem tok0 (corpus1.getD 0 []) := by
  have hc := c10_prepare_data_no_mutation tok0 corpus1 [0] (by decide)
  exact ⟨hc.2.1, hc.2.2.1 0 (by decide)⟩

end DataReader
